import Mathlib

/-!
Shallow embedding of the camera-model core of the `cubemap_converter`
repository: `scripts/utils.py`, `scripts/fisheye_model.py` and
`scripts/convert_data.py`.

Modelling conventions:
* NumPy float64 arithmetic is idealised as exact arithmetic in a `Field`
  (instantiated at `ℝ` for the claims); `np.sqrt`, `np.cos`, `np.sin`,
  `np.arctan2`, `np.arccos` become the corresponding real functions.
* An `(n, 1)` NumPy column is embedded as a `List` of scalars.  Every batched
  operation used by the scripts (`np.power`, elementwise `*`, `-`, `/`, and
  matrix product with a constant `(5, 1)` column, which is a per-row dot
  product) acts independently on each row, so a batched function is embedded
  as a scalar function together with its `List.map` lift.
* A Python `dict` camera description parsed from TOML is embedded as a
  structure of `Option` fields: `none` models an absent key.  A raised
  exception is modelled as `Except.error` carrying the exception class
  (`KeyError` / `ValueError`, the two classes raised by `convert_data.py`)
  and its message.  Because a message interpolates `pprint.pformat(camera)`,
  messages are modelled as a small datatype recording the format template
  and the record it echoes, rather than as flat strings.
-/

namespace CubemapConverter

variable {α : Type} [Field α]

/-- Kannala-Brandt distortion coefficients `(k1, k2, k3, k4)`: the four values
supplied by configuration (the `coeffs` 4-vector of `fisheye_model.py`). -/
structure KBCoeffs (α : Type) where
  k1 : α
  k2 : α
  k3 : α
  k4 : α

/-- Scalar (per-row) translation of `fisheye_distortion`
(`fisheye_model.py`, lines 8-40): build the even power terms
`[1, θ², θ⁴, θ⁶, θ⁸]`, multiply by `θ` to get the odd terms, prepend the
implicit constant `1.0` to the supplied coefficients, and return the radius
(odd terms dotted with the extended coefficients) together with its
derivative (even terms dotted with the extended coefficients scaled by
`[1, 3, 5, 7, 9]`). -/
def fisheye_distortion (theta : α) (c : KBCoeffs α) : α × α :=
  let poly_terms_even : List α := [1, theta ^ 2, theta ^ 4, theta ^ 6, theta ^ 8]
  let poly_terms_odd : List α := poly_terms_even.map fun t => t * theta
  let coeffs_extended : List α := [1, c.k1, c.k2, c.k3, c.k4]
  let r := (List.zipWith (fun a b => a * b) poly_terms_odd coeffs_extended).sum
  let r_D_theta := (List.zipWith (fun a b => a * b) poly_terms_even
    (List.zipWith (fun a b => a * b) coeffs_extended [1, 3, 5, 7, 9])).sum
  (r, r_D_theta)

/-- Column version of `fisheye_distortion`: the batched NumPy computation on
an `(n, 1)` column of angles is the elementwise application of the scalar
function to every row. -/
def fisheye_distortion_col (theta : List α) (c : KBCoeffs α) : List α × List α :=
  (theta.map fun t => (fisheye_distortion t c).1,
   theta.map fun t => (fisheye_distortion t c).2)

/-- One execution of the loop body of `fisheye_invert_distortion`
(`fisheye_model.py`, lines 52-55): evaluate the curve at the current `theta`,
form `error = r_predicted - r`, and update `theta`.  Returns the updated
`theta` together with the `error` computed by this pass. -/
def newtonBody (r : α) (c : KBCoeffs α) (theta : α) : α × α :=
  let p := fisheye_distortion theta c
  let error := p.1 - r
  (theta - error / p.2, error)

/-- Run the loop body of `fisheye_invert_distortion` exactly `k + 1` times,
returning the final `theta` and the `error` computed by the last pass (the
Python variable `error` holds the value assigned on the final iteration). -/
def newtonLoop (r : α) (c : KBCoeffs α) : ℕ → α → α × α
  | 0, theta => newtonBody r c theta
  | k + 1, theta => newtonLoop r c k (newtonBody r c theta).1

/-- Translation of `fisheye_invert_distortion` (`fisheye_model.py`,
lines 43-57): start from `theta = r` and run the Newton-Raphson body
`max_iters` times (the Python default for `max_iters` is `10`, and the
function asserts `max_iters > 0`; `newtonLoop r c k` performs `k + 1`
passes, so `max_iters - 1` is passed here).  Returns `(theta, error)`. -/
def fisheye_invert_distortion (r : α) (c : KBCoeffs α) (max_iters : ℕ) : α × α :=
  newtonLoop r c (max_iters - 1) r

/-- Column version of `fisheye_invert_distortion`: all operations in the loop
are elementwise over the rows of the `(n, 1)` column `r`, so the batched
computation is the elementwise application of the scalar one. -/
def fisheye_invert_distortion_col (r : List α) (c : KBCoeffs α) (max_iters : ℕ) :
    List α × List α :=
  (r.map fun x => (fisheye_invert_distortion x c max_iters).1,
   r.map fun x => (fisheye_invert_distortion x c max_iters).2)

/-- The Newton-Raphson update map `θ ↦ θ − (curve(θ) − r) / curve′(θ)`
described by the specification for the inversion solver. -/
def newtonStep (r : α) (c : KBCoeffs α) (theta : α) : α :=
  theta - ((fisheye_distortion theta c).1 - r) / (fisheye_distortion theta c).2

/-- The Newton-Raphson loop written inline in `unproject_fisheye`
(`fisheye_model.py`, lines 155-159), with the iteration count made explicit:
each pass evaluates the curve, forms the error and updates `theta`; the
`error` value is not used after the loop (the source carries a TODO noting
it is unchecked). -/
def unprojectThetaLoop (r : α) (c : KBCoeffs α) : ℕ → α → α
  | 0, theta => theta
  | k + 1, theta =>
    unprojectThetaLoop r c k
      (theta - ((fisheye_distortion theta c).1 - r) / (fisheye_distortion theta c).2)

/-- The `theta` computed by the inline ten-iteration loop of
`unproject_fisheye`, starting from `theta = r`. -/
def unprojectTheta (r : α) (c : KBCoeffs α) : α :=
  unprojectThetaLoop r c 10 r

/-- Translation of `create_grid` (`utils.py`, lines 4-8): `np.meshgrid` of
`arange(width)` and `arange(height)` stacked on the last axis and reshaped
row-major to `(N, 2)` enumerates the pairs `(x, y)` with `y` in row-major
(outer) position and `x` varying fastest. -/
def create_grid (width height : ℕ) : List (ℕ × ℕ) :=
  (List.range height).flatMap fun y => (List.range width).map fun x => (x, y)

/-- A 3-vector of scalars (one row of an `(N, 3)` NumPy array). -/
structure Vec3 (α : Type) where
  x : α
  y : α
  z : α

/-- A 3×3 matrix of scalars, row-major fields. -/
structure Mat3 (α : Type) where
  m00 : α
  m01 : α
  m02 : α
  m10 : α
  m11 : α
  m12 : α
  m20 : α
  m21 : α
  m22 : α

/-- Determinant of a 3×3 matrix (cofactor expansion along the first row). -/
def det3 (A : Mat3 α) : α :=
  A.m00 * (A.m11 * A.m22 - A.m12 * A.m21)
    - A.m01 * (A.m10 * A.m22 - A.m12 * A.m20)
    + A.m02 * (A.m10 * A.m21 - A.m11 * A.m20)

/-- Matrix inverse via the adjugate formula, embedding `np.linalg.inv` on an
invertible 3×3 matrix (the scripts only invert camera matrices, which are
invertible whenever `fx, fy ≠ 0`). -/
def inv33 (A : Mat3 α) : Mat3 α :=
  let d := det3 A
  ⟨(A.m11 * A.m22 - A.m12 * A.m21) / d,
   (A.m02 * A.m21 - A.m01 * A.m22) / d,
   (A.m01 * A.m12 - A.m02 * A.m11) / d,
   (A.m12 * A.m20 - A.m10 * A.m22) / d,
   (A.m00 * A.m22 - A.m02 * A.m20) / d,
   (A.m02 * A.m10 - A.m00 * A.m12) / d,
   (A.m10 * A.m21 - A.m11 * A.m20) / d,
   (A.m01 * A.m20 - A.m00 * A.m21) / d,
   (A.m00 * A.m11 - A.m01 * A.m10) / d⟩

/-- Matrix-vector product of a 3×3 matrix with a 3-vector. -/
def mulVec3 (A : Mat3 α) (v : Vec3 α) : Vec3 α :=
  ⟨A.m00 * v.x + A.m01 * v.y + A.m02 * v.z,
   A.m10 * v.x + A.m11 * v.y + A.m12 * v.z,
   A.m20 * v.x + A.m21 * v.y + A.m22 * v.z⟩

/-- Euclidean norm of a 3-vector (`np.linalg.norm` on one row of an
`(N, 3)` array). -/
noncomputable def norm3 (v : Vec3 ℝ) : ℝ :=
  Real.sqrt (v.x ^ 2 + v.y ^ 2 + v.z ^ 2)

/-- Four-quadrant arctangent, embedding `np.arctan2 (y, x)` (IEEE atan2 with
`atan2 0 0 = 0`). -/
noncomputable def atan2 (y x : ℝ) : ℝ :=
  if 0 < x then Real.arctan (y / x)
  else if x < 0 ∧ 0 ≤ y then Real.arctan (y / x) + Real.pi
  else if x < 0 ∧ y < 0 then Real.arctan (y / x) - Real.pi
  else if x = 0 ∧ 0 < y then Real.pi / 2
  else if x = 0 ∧ y < 0 then -(Real.pi / 2)
  else 0

/-- Per-pixel translation of `unproject_fisheye` (`fisheye_model.py`,
lines 135-166): append a homogeneous `1`, multiply by the inverse camera
matrix, take the image-plane radius and azimuth, recover `theta` by the
inline ten-iteration Newton loop, and return
`(cos φ · sin θ, sin φ · sin θ, cos θ)`. -/
noncomputable def unproject_fisheye (p : ℝ × ℝ) (Kmat : Mat3 ℝ) (c : KBCoeffs ℝ) :
    Vec3 ℝ :=
  let p_img := mulVec3 (inv33 Kmat) ⟨p.1, p.2, 1⟩
  let r := Real.sqrt (p_img.x ^ 2 + p_img.y ^ 2)
  let phi := atan2 p_img.y p_img.x
  let theta := unprojectTheta r c
  ⟨Real.cos phi * Real.sin theta, Real.sin phi * Real.sin theta, Real.cos theta⟩

/-- The `dimensions` sub-record of a camera description; a `none` field
models an absent key of the Python dict. -/
structure DimensionsRec where
  width : Option ℕ
  height : Option ℕ

/-- The `camera_matrix` sub-record of a camera description. -/
structure CameraMatrixRec where
  fx : Option ℝ
  fy : Option ℝ
  cx : Option ℝ
  cy : Option ℝ

/-- The `distortion_coefficients` sub-record; the fisheye path matches keys
`k1..k4` and the Brown-Conrady path matches `k1, k2, k3, p1, p2` (Python
mapping patterns ignore extra keys, so one record with all optional keys is
a faithful embedding). -/
structure DistortionRec where
  k1 : Option ℝ
  k2 : Option ℝ
  k3 : Option ℝ
  k4 : Option ℝ
  p1 : Option ℝ
  p2 : Option ℝ

/-- A camera description dict parsed from the TOML configuration. -/
structure Camera where
  model : Option String
  dimensions : Option DimensionsRec
  camera_matrix : Option CameraMatrixRec
  distortion_coefficients : Option DistortionRec

/-- Message of a raised exception.  Each constructor records the f-string
template used at the corresponding `raise` site of `convert_data.py` and the
data the template interpolates (`pprint.pformat(camera)` echoes the full
offending camera record, so the record itself is carried). -/
inductive ErrMsg where
  | incorrectDimensions (cam : Camera)
  | incorrectCameraMatrix (cam : Camera)
  | incorrectDistortion (cam : Camera)
  | lacksModelSpecifier (cam : Camera)
  | invalidModel (model : String)

/-- A raised Python exception: `convert_data.py` raises only `ValueError`
(configuration errors) and `KeyError` (model-tag errors). -/
inductive PyError where
  | keyError (msg : ErrMsg)
  | valueError (msg : ErrMsg)

/-- The exception class of a raised error, forgetting the message. -/
inductive PyErrorClass where
  | keyError
  | valueError
deriving DecidableEq

/-- Map an error to its exception class. -/
def PyError.classOf : PyError → PyErrorClass
  | .keyError _ => .keyError
  | .valueError _ => .valueError

/-- Translation of `get_image_dimensions` (`convert_data.py`, lines 20-27):
match `camera.get("dimensions", dict())` against `{"width": w, "height": h}`
and raise `ValueError` echoing the camera description otherwise. -/
def get_image_dimensions (cam : Camera) : Except PyError (ℕ × ℕ) :=
  match cam.dimensions with
  | some d =>
    match d.width, d.height with
    | some w, some h => .ok (w, h)
    | _, _ => .error (.valueError (.incorrectDimensions cam))
  | none => .error (.valueError (.incorrectDimensions cam))

/-- Translation of `get_camera_matrix` (`convert_data.py`, lines 30-37):
match the `camera_matrix` record against `{fx, fy, cx, cy}` and build
`[[fx, 0, cx], [0, fy, cy], [0, 0, 1]]`, raising `ValueError` echoing the
camera description otherwise. -/
def get_camera_matrix (cam : Camera) : Except PyError (Mat3 ℝ) :=
  match cam.camera_matrix with
  | some m =>
    match m.fx, m.fy, m.cx, m.cy with
    | some fx, some fy, some cx, some cy =>
      .ok ⟨fx, 0, cx, 0, fy, cy, 0, 0, 1⟩
    | _, _, _, _ => .error (.valueError (.incorrectCameraMatrix cam))
  | none => .error (.valueError (.incorrectCameraMatrix cam))

/-- The inline coefficient extraction of `create_fisheye_remap_table`
(`convert_data.py`, lines 45-51): match `{k1, k2, k3, k4}`. -/
def get_fisheye_coeffs (cam : Camera) : Except PyError (KBCoeffs ℝ) :=
  match cam.distortion_coefficients with
  | some d =>
    match d.k1, d.k2, d.k3, d.k4 with
    | some k1, some k2, some k3, some k4 => .ok ⟨k1, k2, k3, k4⟩
    | _, _, _, _ => .error (.valueError (.incorrectDistortion cam))
  | none => .error (.valueError (.incorrectDistortion cam))

/-- The inline coefficient extraction of `create_brown_conrady_remap_table`
(`convert_data.py`, lines 63-69): match `{k1, k2, k3, p1, p2}` and reorder
into the `(k1, k2, p1, p2, k3)` convention of the undistortion primitive. -/
def get_bc_coeffs (cam : Camera) : Except PyError (ℝ × ℝ × ℝ × ℝ × ℝ) :=
  match cam.distortion_coefficients with
  | some d =>
    match d.k1, d.k2, d.k3, d.p1, d.p2 with
    | some k1, some k2, some k3, some p1, some p2 => .ok (k1, k2, p1, p2, k3)
    | _, _, _, _, _ => .error (.valueError (.incorrectDistortion cam))
  | none => .error (.valueError (.incorrectDistortion cam))

/-- NumPy `reshape([height, width, 3])` applied to a flat row-major `(N, 3)`
array with `N = height * width`: row `y` of the result is the contiguous
slice `flat[y*width : (y+1)*width]`; no element is reordered. -/
def reshapeRows {β : Type} (width height : ℕ) (flat : List β) : List (List β) :=
  (List.range height).map fun y => (flat.drop (y * width)).take width

/-- Translation of `create_fisheye_remap_table` (`convert_data.py`,
lines 40-55): extract dimensions, camera matrix and coefficients
(propagating raised errors), build the pixel grid, unproject every pixel
and reshape to `height × width × 3`. -/
noncomputable def create_fisheye_remap_table (cam : Camera) :
    Except PyError (List (List (Vec3 ℝ))) :=
  match get_image_dimensions cam with
  | .error e => .error e
  | .ok (width, height) =>
    match get_camera_matrix cam with
    | .error e => .error e
    | .ok Kmat =>
      match get_fisheye_coeffs cam with
      | .error e => .error e
      | .ok coeffs =>
        .ok (reshapeRows width height
          ((create_grid width height).map fun p =>
            unproject_fisheye ((p.1 : ℝ), (p.2 : ℝ)) Kmat coeffs))

/-- The per-point tail of `create_brown_conrady_remap_table`
(`convert_data.py`, lines 76-82): append a homogeneous `1` to an undistorted
normalized point and divide by the Euclidean norm. -/
noncomputable def bc_unit_ray (u v : ℝ) : Vec3 ℝ :=
  let n := Real.sqrt (u ^ 2 + v ^ 2 + 1 ^ 2)
  ⟨u / n, v / n, 1 / n⟩

/-- Translation of `create_brown_conrady_remap_table` (`convert_data.py`,
lines 58-82).  `cv2.undistortPoints` is an external collaborator (spec §6)
and is passed in as the function `undistortPoints`. -/
noncomputable def create_brown_conrady_remap_table
    (undistortPoints : List (ℝ × ℝ) → Mat3 ℝ → ℝ × ℝ × ℝ × ℝ × ℝ → List (ℝ × ℝ))
    (cam : Camera) : Except PyError (List (List (Vec3 ℝ))) :=
  match get_image_dimensions cam with
  | .error e => .error e
  | .ok (width, height) =>
    match get_camera_matrix cam with
    | .error e => .error e
    | .ok Kmat =>
      match get_bc_coeffs cam with
      | .error e => .error e
      | .ok coeffs =>
        let p_native := (create_grid width height).map fun p => ((p.1 : ℝ), (p.2 : ℝ))
        let p_undistorted := undistortPoints p_native Kmat coeffs
        .ok (reshapeRows width height
          (p_undistorted.map fun q => bc_unit_ray q.1 q.2))

/-- Translation of `create_remap_table` (`convert_data.py`, lines 85-96):
raise `KeyError` when the `model` key is absent, dispatch on the tag, and
raise `KeyError` for an unrecognized tag. -/
noncomputable def create_remap_table
    (undistortPoints : List (ℝ × ℝ) → Mat3 ℝ → ℝ × ℝ × ℝ × ℝ × ℝ → List (ℝ × ℝ))
    (cam : Camera) : Except PyError (List (List (Vec3 ℝ))) :=
  match cam.model with
  | none => .error (.keyError (.lacksModelSpecifier cam))
  | some model =>
    if model = "fisheye" then create_fisheye_remap_table cam
    else if model = "brown-conrady" then create_brown_conrady_remap_table undistortPoints cam
    else .error (.keyError (.invalidModel model))

/-- A camera description with no `model` key. -/
def camNoModel : Camera := ⟨none, none, none, none⟩

/-- A camera description whose `model` is the unsupported `"pinhole"`. -/
def camPinhole : Camera := ⟨some "pinhole", none, none, none⟩

/-- A trivial stand-in for the external undistortion primitive, used to
instantiate dispatch statements at concrete inputs. -/
def undistortId : List (ℝ × ℝ) → Mat3 ℝ → ℝ × ℝ × ℝ × ℝ × ℝ → List (ℝ × ℝ) :=
  fun ps _ _ => ps

/-- Identity camera matrix (`fx = fy = 1`, `cx = cy = 0`). -/
def kId : Mat3 ℝ := ⟨1, 0, 0, 0, 1, 0, 0, 0, 1⟩

/-- Equidistant Kannala-Brandt coefficients (all zero). -/
def kbZero : KBCoeffs ℝ := ⟨0, 0, 0, 0⟩

/-- A valid 4×3 fisheye camera with identity intrinsics and equidistant
coefficients. -/
def camFisheye43 : Camera :=
  ⟨some "fisheye", some ⟨some 4, some 3⟩, some ⟨some 1, some 1, some 0, some 0⟩,
   some ⟨some 0, some 0, some 0, some 0, none, none⟩⟩

/-- A valid 1×1 fisheye camera with identity intrinsics and equidistant
coefficients. -/
def camFisheye11 : Camera :=
  ⟨some "fisheye", some ⟨some 1, some 1⟩, some ⟨some 1, some 1, some 0, some 0⟩,
   some ⟨some 0, some 0, some 0, some 0, none, none⟩⟩

/-- A fisheye camera whose `camera_matrix` record lacks the `cy` key. -/
def camNoCy : Camera :=
  ⟨some "fisheye", some ⟨some 4, some 3⟩, some ⟨some 1, some 1, some 0, none⟩, none⟩

/-- A camera whose `dimensions` record lacks the `height` key. -/
def camNoHeight : Camera := ⟨some "fisheye", some ⟨some 4, none⟩, none, none⟩

/-- The remap table of `camFisheye43` (the value
`create_fisheye_remap_table camFisheye43` computes to). -/
noncomputable def tbl43 : List (List (Vec3 ℝ)) :=
  reshapeRows 4 3
    ((create_grid 4 3).map fun p => unproject_fisheye ((p.1 : ℝ), (p.2 : ℝ)) kId kbZero)

/-- The remap table of `camFisheye11`. -/
noncomputable def tbl11 : List (List (Vec3 ℝ)) :=
  reshapeRows 1 1
    ((create_grid 1 1).map fun p => unproject_fisheye ((p.1 : ℝ), (p.2 : ℝ)) kId kbZero)

/-- Closed form of the radius component of `fisheye_distortion`. -/
theorem fisheye_distortion_fst (theta : α) (c : KBCoeffs α) :
    (fisheye_distortion theta c).1 =
      theta + c.k1 * theta ^ 3 + c.k2 * theta ^ 5 + c.k3 * theta ^ 7 + c.k4 * theta ^ 9 := by
  simp only [fisheye_distortion, List.map_cons, List.map_nil, List.zipWith_cons_cons,
    List.zipWith_nil_right, List.sum_cons, List.sum_nil]
  ring

/-- Closed form of the derivative component of `fisheye_distortion`. -/
theorem fisheye_distortion_snd (theta : α) (c : KBCoeffs α) :
    (fisheye_distortion theta c).2 =
      1 + 3 * c.k1 * theta ^ 2 + 5 * c.k2 * theta ^ 4 + 7 * c.k3 * theta ^ 6
        + 9 * c.k4 * theta ^ 8 := by
  simp only [fisheye_distortion, List.map_cons, List.map_nil, List.zipWith_cons_cons,
    List.zipWith_nil_right, List.sum_cons, List.sum_nil]
  ring

/-- The `theta` component of `k + 1` passes of the loop body is `k + 1`
applications of the Newton update map. -/
theorem newtonLoop_fst (r : α) (c : KBCoeffs α) (k : ℕ) :
    ∀ theta, (newtonLoop r c k theta).1 = (newtonStep r c)^[k + 1] theta := by
  induction k with
  | zero =>
    intro theta
    simp only [newtonLoop, newtonBody, newtonStep, Nat.zero_add, Function.iterate_one]
  | succ n ih =>
    intro theta
    rw [show (newtonLoop r c (n + 1) theta).1
        = (newtonLoop r c n (newtonBody r c theta).1).1 from rfl]
    rw [ih, show (newtonBody r c theta).1 = newtonStep r c theta from rfl,
      ← Function.iterate_succ_apply]

/-- The `error` component of `k + 1` passes of the loop body is the residual
of the iterate fed into the last pass, i.e. of `k` (not `k + 1`) Newton
updates. -/
theorem newtonLoop_snd (r : α) (c : KBCoeffs α) (k : ℕ) :
    ∀ theta, (newtonLoop r c k theta).2 =
      (fisheye_distortion ((newtonStep r c)^[k] theta) c).1 - r := by
  induction k with
  | zero =>
    intro theta
    simp only [newtonLoop, newtonBody, Function.iterate_zero, id_eq]
  | succ n ih =>
    intro theta
    rw [show (newtonLoop r c (n + 1) theta).2
        = (newtonLoop r c n (newtonBody r c theta).1).2 from rfl]
    rw [ih, show (newtonBody r c theta).1 = newtonStep r c theta from rfl,
      ← Function.iterate_succ_apply]

/-- Scalar form of the returned `theta` of `fisheye_invert_distortion`. -/
theorem fisheye_invert_distortion_fst (x : α) (c : KBCoeffs α) (n : ℕ) (h : 0 < n) :
    (fisheye_invert_distortion x c n).1 = (newtonStep x c)^[n] x := by
  unfold fisheye_invert_distortion
  rw [newtonLoop_fst]
  congr 1
  omega

/-- Scalar form of the returned `error` of `fisheye_invert_distortion`: it is
the residual of the penultimate iterate. -/
theorem fisheye_invert_distortion_snd (x : α) (c : KBCoeffs α) (n : ℕ) :
    (fisheye_invert_distortion x c n).2 =
      (fisheye_distortion ((newtonStep x c)^[n - 1] x) c).1 - x := by
  unfold fisheye_invert_distortion
  rw [newtonLoop_snd]

/-- The inline loop of `unproject_fisheye` iterates the Newton update map. -/
theorem unprojectThetaLoop_eq (r : α) (c : KBCoeffs α) (k : ℕ) :
    ∀ theta, unprojectThetaLoop r c k theta = (newtonStep r c)^[k] theta := by
  induction k with
  | zero =>
    intro theta
    simp only [unprojectThetaLoop, Function.iterate_zero, id_eq]
  | succ n ih =>
    intro theta
    rw [Function.iterate_succ_apply]
    rw [show unprojectThetaLoop r c (n + 1) theta
        = unprojectThetaLoop r c n (newtonStep r c theta) from rfl]
    exact ih _

/-- The inline loop of `unproject_fisheye` computes the same `theta` as
`fisheye_invert_distortion` run for ten iterations. -/
theorem unprojectTheta_eq_invert (x : α) (c : KBCoeffs α) :
    unprojectTheta x c = (fisheye_invert_distortion x c 10).1 := by
  unfold unprojectTheta
  rw [unprojectThetaLoop_eq, fisheye_invert_distortion_fst x c 10 (by omega)]

/-- C2: for every column of incidence angles and every coefficient 4-vector,
`fisheye_distortion` returns elementwise the radius
`r = θ + k1·θ³ + k2·θ⁵ + k3·θ⁷ + k4·θ⁹` and the derivative
`dr/dθ = 1 + 3k1·θ² + 5k2·θ⁴ + 7k3·θ⁶ + 9k4·θ⁸`; the leading coefficient of
both polynomials is the implicit constant `1`, independent of the supplied
coefficients. -/
theorem fisheye_distortion_formula (theta : List ℝ) (c : KBCoeffs ℝ) :
    (fisheye_distortion_col theta c).1 = (theta.map fun t =>
        t + c.k1 * t ^ 3 + c.k2 * t ^ 5 + c.k3 * t ^ 7 + c.k4 * t ^ 9) ∧
    (fisheye_distortion_col theta c).2 = (theta.map fun t =>
        1 + 3 * c.k1 * t ^ 2 + 5 * c.k2 * t ^ 4 + 7 * c.k3 * t ^ 6 + 9 * c.k4 * t ^ 8) := by
  unfold fisheye_distortion_col
  constructor
  · simp only [fisheye_distortion_fst]
  · simp only [fisheye_distortion_snd]

/-- C3: for every column of target radii and every coefficient 4-vector,
`fisheye_invert_distortion` starts from `θ₀ = r` and performs exactly
`max_iters` Newton-Raphson updates `θ ← θ − (curve(θ) − r) / curve′(θ)`
(plain field division, no guard, no convergence check, no early exit),
returning the `θ` obtained after the last update. -/
theorem fisheye_invert_distortion_newton (r : List ℝ) (c : KBCoeffs ℝ)
    (max_iters : ℕ) (h : 0 < max_iters) :
    (fisheye_invert_distortion_col r c max_iters).1 =
      r.map fun x => (newtonStep x c)^[max_iters] x := by
  unfold fisheye_invert_distortion_col
  simp only [fisheye_invert_distortion_fst, h]

/-- Witness for C3 at a concrete input. -/
theorem fisheye_invert_distortion_newton_witness :
    0 < 1 ∧ (fisheye_invert_distortion_col [(1 : ℝ)] ⟨1, 0, 0, 0⟩ 1).1 =
      [(1 : ℝ)].map fun x => (newtonStep x ⟨1, 0, 0, 0⟩)^[1] x :=
  ⟨Nat.one_pos, fisheye_invert_distortion_newton [(1 : ℝ)] ⟨1, 0, 0, 0⟩ 1 Nat.one_pos⟩

/-- C9: the Newton-Raphson loop written inline in `unproject_fisheye` is
equivalent to `fisheye_invert_distortion` with `max_iters = 10`: on every
radius column and coefficient 4-vector both compute the identical theta
column. -/
theorem unproject_loop_refines_invert (r : List ℝ) (c : KBCoeffs ℝ) :
    r.map (fun x => unprojectTheta x c) = (fisheye_invert_distortion_col r c 10).1 := by
  unfold fisheye_invert_distortion_col
  simp only [unprojectTheta_eq_invert]

/-- C10: the `error` returned by `fisheye_invert_distortion` is stale with
respect to the returned `theta`: it is the residual of the iterate before the
final Newton update, and there are inputs (one iteration, coefficients
`(1, 0, 0, 0)`, radius `1`) where the residual of the returned `theta`
differs from the returned `error`. -/
theorem invert_distortion_error_stale :
    (∀ (r : List ℝ) (c : KBCoeffs ℝ) (n : ℕ), 0 < n →
      (fisheye_invert_distortion_col r c n).2 = r.map fun x =>
        (fisheye_distortion ((newtonStep x c)^[n - 1] x) c).1 - x) ∧
    (fisheye_distortion (fisheye_invert_distortion (1 : ℝ) ⟨1, 0, 0, 0⟩ 1).1
        ⟨1, 0, 0, 0⟩).1 - 1 ≠
      (fisheye_invert_distortion (1 : ℝ) ⟨1, 0, 0, 0⟩ 1).2 := by
  constructor
  · intro r c n _hn
    unfold fisheye_invert_distortion_col
    simp only [fisheye_invert_distortion_snd]
  · have h1 : fisheye_invert_distortion (1 : ℝ) ⟨1, 0, 0, 0⟩ 1 = (3 / 4, 1) := by
      norm_num [fisheye_invert_distortion, newtonLoop, newtonBody, fisheye_distortion,
        List.zipWith, List.sum_cons, List.sum_nil]
    rw [h1, fisheye_distortion_fst]
    norm_num

/-- Witness for C10 at a concrete input. -/
theorem invert_error_stale_witness :
    0 < 1 ∧ (fisheye_invert_distortion_col [(1 : ℝ)] ⟨1, 0, 0, 0⟩ 1).2 =
      [(1 : ℝ)].map fun x =>
        (fisheye_distortion ((newtonStep x ⟨1, 0, 0, 0⟩)^[1 - 1] x) ⟨1, 0, 0, 0⟩).1 - x :=
  ⟨Nat.one_pos, invert_distortion_error_stale.1 [(1 : ℝ)] ⟨1, 0, 0, 0⟩ 1 Nat.one_pos⟩

/-- Length of the pixel grid. -/
theorem create_grid_length (width height : ℕ) :
    (create_grid width height).length = height * width := by
  induction height with
  | zero => simp [create_grid]
  | succ n ih =>
    unfold create_grid at ih ⊢
    rw [List.range_succ, List.flatMap_append]
    simp only [List.length_append, ih, List.flatMap_cons, List.flatMap_nil,
      List.append_nil, List.length_map, List.length_range]
    ring

/-- Appending one more row to the pixel grid. -/
theorem create_grid_succ (width n : ℕ) :
    create_grid width (n + 1) =
      create_grid width n ++ (List.range width).map fun x => (x, n) := by
  unfold create_grid
  rw [List.range_succ, List.flatMap_append]
  simp

/-- The element of the pixel grid at flat index `y * width + x` is `(x, y)`. -/
theorem create_grid_getElem (width height x y : ℕ) (hx : x < width) (hy : y < height) :
    (create_grid width height)[y * width + x]? = some (x, y) := by
  induction height with
  | zero => exact absurd hy (Nat.not_lt_zero y)
  | succ n ih =>
    rw [create_grid_succ]
    rcases Nat.lt_or_ge y n with hyn | hyn
    · have hlen : y * width + x < (create_grid width n).length := by
        rw [create_grid_length]
        have h1 : (y + 1) * width ≤ n * width := Nat.mul_le_mul_right width (by omega)
        have h2 : (y + 1) * width = y * width + width := by ring
        omega
      rw [List.getElem?_append_left hlen]
      exact ih hyn
    · have hy' : y = n := by omega
      subst hy'
      have hlen : (create_grid width y).length ≤ y * width + x := by
        rw [create_grid_length]
        omega
      rw [List.getElem?_append_right hlen, create_grid_length]
      have hidx : y * width + x - y * width = x := by omega
      rw [hidx, List.getElem?_map, List.getElem?_range hx]
      rfl

/-- C4: for every positive width and height, `create_grid` returns exactly
`width * height` coordinate pairs in row-major order with `x` varying
fastest (the pair at flat index `y * width + x` is `(x, y)`), each in
`[0, width) × [0, height)`; in particular `create_grid 3 2` is exactly
`[(0,0), (1,0), (2,0), (0,1), (1,1), (2,1)]`. -/
theorem create_grid_spec :
    (∀ width height : ℕ, (create_grid width height).length = width * height) ∧
    (∀ width height x y : ℕ, x < width → y < height →
      (create_grid width height)[y * width + x]? = some (x, y)) ∧
    (∀ width height : ℕ, ∀ p ∈ create_grid width height, p.1 < width ∧ p.2 < height) ∧
    create_grid 3 2 = [(0, 0), (1, 0), (2, 0), (0, 1), (1, 1), (2, 1)] := by
  refine ⟨fun w h => by rw [create_grid_length]; ring, create_grid_getElem, ?_, by decide⟩
  intro w h p hp
  unfold create_grid at hp
  obtain ⟨y, hy, hmem⟩ := List.mem_flatMap.mp hp
  obtain ⟨x, hx, rfl⟩ := List.mem_map.mp hmem
  exact ⟨List.mem_range.mp hx, List.mem_range.mp hy⟩

/-- Witness for C4 at a concrete input. -/
theorem create_grid_spec_witness :
    1 < 3 ∧ 1 < 2 ∧ (create_grid 3 2)[1 * 3 + 1]? = some (1, 1) :=
  ⟨by decide, by decide, create_grid_spec.2.1 3 2 1 1 (by decide) (by decide)⟩

/-- Number of rows of a reshaped table. -/
theorem reshapeRows_length {β : Type} (width height : ℕ) (flat : List β) :
    (reshapeRows width height flat).length = height := by
  unfold reshapeRows
  simp

/-- Every row of a reshaped table of a flat list of the right length has
exactly `width` entries. -/
theorem reshapeRows_row_length {β : Type} (width height : ℕ) (flat : List β)
    (hlen : flat.length = height * width) :
    ∀ row ∈ reshapeRows width height flat, row.length = width := by
  intro row hrow
  unfold reshapeRows at hrow
  obtain ⟨y, hy, rfl⟩ := List.mem_map.mp hrow
  rw [List.mem_range] at hy
  rw [List.length_take, List.length_drop, hlen]
  have h1 : (y + 1) * width ≤ height * width := Nat.mul_le_mul_right width (by omega)
  have h2 : (y + 1) * width = y * width + width := by ring
  omega

/-- Reshaping only regroups: entry `[y][x]` of the reshaped table is the flat
entry at row-major index `y * width + x`. -/
theorem reshapeRows_getElem {β : Type} (width height x y : ℕ) (flat : List β)
    (hx : x < width) (hy : y < height) :
    ((reshapeRows width height flat)[y]?.bind fun row => row[x]?) =
      flat[y * width + x]? := by
  unfold reshapeRows
  rw [List.getElem?_map, List.getElem?_range hy]
  simp only [Option.map_some', Option.some_bind]
  rw [List.getElem?_take_of_lt hx, List.getElem?_drop]

/-- Every entry of a reshaped table is an entry of the flat list. -/
theorem reshapeRows_entry_mem {β : Type} {width height : ℕ} {flat : List β}
    {row : List β} {v : β} (hrow : row ∈ reshapeRows width height flat)
    (hv : v ∈ row) : v ∈ flat := by
  unfold reshapeRows at hrow
  obtain ⟨y, _, rfl⟩ := List.mem_map.mp hrow
  exact List.drop_subset _ _ (List.take_subset _ _ hv)

/-- C5: for a fisheye camera description with valid dimensions, camera matrix
and coefficients, `create_fisheye_remap_table` returns a `height` by `width`
table of 3-vectors whose entry at `[y][x]` is the unprojection of pixel
`(x, y)`: the reshape only regroups the row-major flat unprojection result
into rows of length `width` without reordering. -/
theorem create_fisheye_remap_table_spec (cam : Camera) (width height : ℕ)
    (Kmat : Mat3 ℝ) (c : KBCoeffs ℝ) (tbl : List (List (Vec3 ℝ))) (x y : ℕ)
    (hdim : get_image_dimensions cam = .ok (width, height))
    (hK : get_camera_matrix cam = .ok Kmat)
    (hc : get_fisheye_coeffs cam = .ok c)
    (htbl : create_fisheye_remap_table cam = .ok tbl)
    (hx : x < width) (hy : y < height) :
    tbl.length = height ∧ (∀ row ∈ tbl, row.length = width) ∧
    (tbl[y]?.bind fun row => row[x]?) =
      some (unproject_fisheye ((x : ℝ), (y : ℝ)) Kmat c) := by
  unfold create_fisheye_remap_table at htbl
  simp only [hdim, hK, hc, Except.ok.injEq] at htbl
  subst htbl
  refine ⟨reshapeRows_length _ _ _, ?_, ?_⟩
  · exact reshapeRows_row_length _ _ _
      (by rw [List.length_map, create_grid_length])
  · rw [reshapeRows_getElem _ _ _ _ _ hx hy, List.getElem?_map,
      create_grid_getElem _ _ _ _ hx hy]
    rfl

/-- Witness for C5: the 4×3 equidistant fisheye camera yields a table of
shape `(3, 4, 3)` whose entry `[0][0]` is the unprojection of pixel
`(0, 0)`. -/
theorem create_fisheye_remap_table_witness :
    tbl43.length = 3 ∧ (∀ row ∈ tbl43, row.length = 4) ∧
    (tbl43[0]?.bind fun row => row[0]?) =
      some (unproject_fisheye (((0 : ℕ) : ℝ), ((0 : ℕ) : ℝ)) kId kbZero) :=
  create_fisheye_remap_table_spec camFisheye43 4 3 kId kbZero tbl43 0 0
    rfl rfl rfl rfl (by decide) (by decide)

/-- Sum-of-squares identity for the spherical ray parameterization. -/
theorem sqrt_ray_norm (phi theta : ℝ) :
    Real.sqrt ((Real.cos phi * Real.sin theta) ^ 2
      + (Real.sin phi * Real.sin theta) ^ 2 + Real.cos theta ^ 2) = 1 := by
  have h : (Real.cos phi * Real.sin theta) ^ 2
      + (Real.sin phi * Real.sin theta) ^ 2 + Real.cos theta ^ 2 = 1 := by
    have h1 := Real.sin_sq_add_cos_sq theta
    have h2 := Real.sin_sq_add_cos_sq phi
    linear_combination Real.sin theta ^ 2 * h2 + h1
  rw [h, Real.sqrt_one]

/-- Fisheye unprojection always returns a unit vector. -/
theorem norm3_unproject_fisheye (p : ℝ × ℝ) (Kmat : Mat3 ℝ) (c : KBCoeffs ℝ) :
    norm3 (unproject_fisheye p Kmat c) = 1 := by
  unfold unproject_fisheye norm3
  exact sqrt_ray_norm _ _

/-- The Brown-Conrady per-point normalization always returns a unit vector. -/
theorem norm3_bc_unit_ray (u v : ℝ) : norm3 (bc_unit_ray u v) = 1 := by
  have hpos : (0 : ℝ) < u ^ 2 + v ^ 2 + 1 ^ 2 := by positivity
  have hsq : Real.sqrt (u ^ 2 + v ^ 2 + 1 ^ 2) ^ 2 = u ^ 2 + v ^ 2 + 1 ^ 2 :=
    Real.sq_sqrt hpos.le
  unfold bc_unit_ray norm3
  rw [div_pow, div_pow, div_pow, div_add_div_same, div_add_div_same, hsq,
    div_self (ne_of_gt hpos), Real.sqrt_one]

/-- C6: every entry of a remap table built for either model is a unit-length
3-vector: the fisheye unprojection returns
`(cos φ · sin θ, sin φ · sin θ, cos θ)`, of Euclidean norm 1, and the
Brown-Conrady path divides each unit-depth homogeneous point by its
Euclidean norm before storing it. -/
theorem remap_table_entries_unit :
    (∀ (cam : Camera) (tbl : List (List (Vec3 ℝ))),
      create_fisheye_remap_table cam = .ok tbl →
      ∀ row ∈ tbl, ∀ v ∈ row, norm3 v = 1) ∧
    (∀ (undistortPoints : List (ℝ × ℝ) → Mat3 ℝ → ℝ × ℝ × ℝ × ℝ × ℝ → List (ℝ × ℝ))
      (cam : Camera) (tbl : List (List (Vec3 ℝ))),
      create_brown_conrady_remap_table undistortPoints cam = .ok tbl →
      ∀ row ∈ tbl, ∀ v ∈ row, norm3 v = 1) := by
  constructor
  · intro cam tbl htbl row hrow v hv
    unfold create_fisheye_remap_table at htbl
    cases hdim : get_image_dimensions cam with
    | error e => simp [hdim] at htbl
    | ok wh =>
      obtain ⟨width, height⟩ := wh
      cases hK : get_camera_matrix cam with
      | error e => simp [hdim, hK] at htbl
      | ok Kmat =>
        cases hc : get_fisheye_coeffs cam with
        | error e => simp [hdim, hK, hc] at htbl
        | ok c =>
          simp only [hdim, hK, hc, Except.ok.injEq] at htbl
          subst htbl
          obtain ⟨p, _, rfl⟩ := List.mem_map.mp (reshapeRows_entry_mem hrow hv)
          exact norm3_unproject_fisheye _ _ _
  · intro undistortPoints cam tbl htbl row hrow v hv
    unfold create_brown_conrady_remap_table at htbl
    cases hdim : get_image_dimensions cam with
    | error e => simp [hdim] at htbl
    | ok wh =>
      obtain ⟨width, height⟩ := wh
      cases hK : get_camera_matrix cam with
      | error e => simp [hdim, hK] at htbl
      | ok Kmat =>
        cases hc : get_bc_coeffs cam with
        | error e => simp [hdim, hK, hc] at htbl
        | ok c =>
          simp only [hdim, hK, hc, Except.ok.injEq] at htbl
          subst htbl
          obtain ⟨q, _, rfl⟩ := List.mem_map.mp (reshapeRows_entry_mem hrow hv)
          exact norm3_bc_unit_ray _ _

/-- Witness for C6 at a concrete camera. -/
theorem remap_table_entries_unit_witness :
    create_fisheye_remap_table camFisheye11 = .ok tbl11 ∧
    norm3 (unproject_fisheye (((0 : ℕ) : ℝ), ((0 : ℕ) : ℝ)) kId kbZero) = 1 :=
  ⟨rfl,
    remap_table_entries_unit.1 camFisheye11 tbl11 rfl
      [unproject_fisheye (((0 : ℕ) : ℝ), ((0 : ℕ) : ℝ)) kId kbZero]
      (List.mem_singleton.mpr rfl)
      (unproject_fisheye (((0 : ℕ) : ℝ), ((0 : ℕ) : ℝ)) kId kbZero)
      (List.mem_singleton.mpr rfl)⟩

/-- C7 counterexample: the missing-model error and the unknown-model error
raised by `create_remap_table` are NOT two distinct error kinds: both are
raised as the same Python exception class `KeyError` (only their messages
differ), as witnessed by a camera with no `model` key and a camera with
`model = "pinhole"`. -/
theorem model_error_kinds_counterexample :
    create_remap_table undistortId camNoModel =
      .error (.keyError (.lacksModelSpecifier camNoModel)) ∧
    create_remap_table undistortId camPinhole =
      .error (.keyError (.invalidModel "pinhole")) ∧
    PyError.classOf (.keyError (.lacksModelSpecifier camNoModel)) =
      PyError.classOf (.keyError (.invalidModel "pinhole")) :=
  ⟨rfl, rfl, rfl⟩

/-- C7 (amended): `create_remap_table` raises a `KeyError` reporting a
missing model specifier when the camera has no `model` key, raises a
`KeyError` reporting an invalid camera model when the `model` value is
neither `"fisheye"` nor `"brown-conrady"`, with the two raise sites carrying
distinct messages (though the same exception class), and otherwise
dispatches to the fisheye or Brown-Conrady table builder without raising. -/
theorem create_remap_table_dispatch
    (undistortPoints : List (ℝ × ℝ) → Mat3 ℝ → ℝ × ℝ × ℝ × ℝ × ℝ → List (ℝ × ℝ))
    (cam : Camera) :
    (cam.model = none → create_remap_table undistortPoints cam =
      .error (.keyError (.lacksModelSpecifier cam))) ∧
    (∀ m, cam.model = some m → m ≠ "fisheye" → m ≠ "brown-conrady" →
      create_remap_table undistortPoints cam =
        .error (.keyError (.invalidModel m))) ∧
    (cam.model = some "fisheye" →
      create_remap_table undistortPoints cam = create_fisheye_remap_table cam) ∧
    (cam.model = some "brown-conrady" →
      create_remap_table undistortPoints cam =
        create_brown_conrady_remap_table undistortPoints cam) ∧
    (∀ (cam' : Camera) (m : String),
      ErrMsg.lacksModelSpecifier cam' ≠ ErrMsg.invalidModel m) := by
  refine ⟨?_, ?_, ?_, ?_, fun cam' m h => by cases h⟩
  · intro h
    unfold create_remap_table
    simp only [h]
  · intro m hm h1 h2
    unfold create_remap_table
    simp only [hm]
    rw [if_neg h1, if_neg h2]
  · intro h
    unfold create_remap_table
    simp [h]
  · intro h
    unfold create_remap_table
    simp [h]

/-- Witness for the amended C7 at a concrete camera. -/
theorem create_remap_table_dispatch_witness :
    create_remap_table undistortId camFisheye11 =
      create_fisheye_remap_table camFisheye11 :=
  (create_remap_table_dispatch undistortId camFisheye11).2.2.1 rfl

/-- C8: extraction of dimensions and camera-matrix fields raises a
`ValueError` whose message echoes the full offending camera description when
a required field is absent: `get_image_dimensions` fails when `width` or
`height` is missing, `get_camera_matrix` fails when any of `fx`, `fy`, `cx`,
`cy` is missing, and when all four camera-matrix fields are present it
returns `[[fx, 0, cx], [0, fy, cy], [0, 0, 1]]` and raises nothing. -/
theorem config_extraction_spec (cam : Camera) :
    (∀ d, cam.dimensions = some d → d.width = none ∨ d.height = none →
      get_image_dimensions cam = .error (.valueError (.incorrectDimensions cam))) ∧
    (∀ m, cam.camera_matrix = some m →
      m.fx = none ∨ m.fy = none ∨ m.cx = none ∨ m.cy = none →
      get_camera_matrix cam = .error (.valueError (.incorrectCameraMatrix cam))) ∧
    (∀ m fx fy cx cy, cam.camera_matrix = some m →
      m.fx = some fx → m.fy = some fy → m.cx = some cx → m.cy = some cy →
      get_camera_matrix cam = .ok ⟨fx, 0, cx, 0, fy, cy, 0, 0, 1⟩) := by
  refine ⟨?_, ?_, ?_⟩
  · intro d hd hmiss
    unfold get_image_dimensions
    rw [hd]
    obtain ⟨wo, ho⟩ := d
    cases wo <;> cases ho <;> simp_all
  · intro m hm hmiss
    unfold get_camera_matrix
    rw [hm]
    obtain ⟨a, b, c, d⟩ := m
    cases a <;> cases b <;> cases c <;> cases d <;> simp_all
  · intro m fx fy cx cy hm h1 h2 h3 h4
    unfold get_camera_matrix
    simp only [hm]
    rw [h1, h2, h3, h4]

/-- Witness for C8 at concrete cameras. -/
theorem config_extraction_witness :
    get_image_dimensions camNoHeight =
      .error (.valueError (.incorrectDimensions camNoHeight)) ∧
    get_camera_matrix camNoCy =
      .error (.valueError (.incorrectCameraMatrix camNoCy)) ∧
    get_camera_matrix camFisheye11 = .ok ⟨1, 0, 0, 0, 1, 0, 0, 0, 1⟩ :=
  ⟨(config_extraction_spec camNoHeight).1 ⟨some 4, none⟩ rfl (Or.inr rfl),
   (config_extraction_spec camNoCy).2.1 ⟨some 1, some 1, some 0, none⟩ rfl
      (Or.inr (Or.inr (Or.inr rfl))),
   (config_extraction_spec camFisheye11).2.2 ⟨some 1, some 1, some 0, some 0⟩ 1 1 0 0
      rfl rfl rfl rfl rfl⟩

end CubemapConverter
